import Mathlib

/-!
Verification of the QKD link calculator (src/qkd_calculator.py and
src/interfaces.py).

The Python code is shallowly embedded:

* `ErrorCalculator` (src/qkd_calculator.py) works with plain scalar
  arithmetic on error rates, bitrates and a name-to-rate dictionary; its
  floats are idealised as exact rationals `ℚ` so that every operation is
  executable and decidable.
* `Simulator` / `Endpoint` (src/interfaces.py) use `math.exp`, so their
  scalars are modelled as real numbers `ℝ`.
* Python dicts are modelled as association lists in insertion order;
  `dict[k] = v` replaces the value in place when the key is present and
  appends otherwise (`updateDict`).
* Python operations that can raise `ZeroDivisionError` are modelled as
  `Option`-valued functions returning `none` exactly when the Python code
  would raise.
* `int(x)` on a float truncates toward zero (`truncToZero`), while the
  float floor-division `x // y` is mathematical `⌊x / y⌋`.
-/

/-- Python dict assignment `d[k] = v` on an insertion-ordered association
list: replace the value of the first (unique) occurrence of `k`, or append
`(k, v)` when `k` is absent. -/
def updateDict {β : Type} : List (String × β) → String → β → List (String × β)
  | [], k, v => [(k, v)]
  | p :: rest, k, v => if p.1 = k then (k, v) :: rest else p :: updateDict rest k v

/-- The keys of an association list, in order. -/
def dictKeys {β : Type} (l : List (String × β)) : List String :=
  l.map Prod.fst

/-- Little-endian decimal digits of `n`, with explicit structural fuel
(`n` itself is always enough fuel). -/
def decDigits : Nat → Nat → List Nat
  | 0, _ => []
  | fuel + 1, n => if n = 0 then [] else n % 10 :: decDigits fuel (n / 10)

/-- Recombine little-endian decimal digits into a number. -/
def fromDigits : List Nat → Nat
  | [] => 0
  | d :: l => d + 10 * fromDigits l

/-- The character for a decimal digit. -/
def digitChr (d : Nat) : Char :=
  Char.ofNat (48 + d)

/-- The decimal string for a natural number, exactly what Python's
`str(n)` / f-string interpolation produces for a non-negative int. -/
def decStr (n : Nat) : String :=
  if n = 0 then "0" else String.mk (((decDigits n n).reverse).map digitChr)

/-- The auto-generated error-source name `f"err_source{n}"` from
`ErrorCalculator.add_error_source`. -/
def autoName (n : Nat) : String :=
  "err_source" ++ decStr n

/-- State of `ErrorCalculator` (src/qkd_calculator.py): link `length`, the
name-to-rate dict `err`, and the auto-name counter `err_num`. -/
structure ErrorCalculator where
  length : ℚ
  err : List (String × ℚ)
  err_num : Nat
deriving DecidableEq

/-- `ErrorCalculator.__init__(length)`: empty registry, counter 0. -/
def ErrorCalculator.init (length : ℚ) : ErrorCalculator :=
  ⟨length, [], 0⟩

/-- The key under which `add_error_source(rate, name)` stores its entry:
the caller's name when it is a truthy (non-empty) string, otherwise the
auto-generated `err_source{err_num}`.  (Python's `if name:` treats both
`None` and `""` as falsy.) -/
def ErrorCalculator.storedKey (c : ErrorCalculator) (name : Option String) : String :=
  match name with
  | some s => if s = "" then autoName c.err_num else s
  | none => autoName c.err_num

/-- `ErrorCalculator.add_error_source(rate, name=None)`: store `rate`
under `name` when truthy, else under `err_source{err_num}`, bumping the
counter only in the auto-named case. -/
def ErrorCalculator.add_error_source (c : ErrorCalculator) (rate : ℚ)
    (name : Option String) : ErrorCalculator :=
  match name with
  | some s =>
      if s = "" then
        ⟨c.length, updateDict c.err (autoName c.err_num) rate, c.err_num + 1⟩
      else
        ⟨c.length, updateDict c.err s rate, c.err_num⟩
  | none =>
      ⟨c.length, updateDict c.err (autoName c.err_num) rate, c.err_num + 1⟩

/-- `ErrorCalculator.calculate_total_error()`: starting from
`total_rate = 1.0`, multiply by `1 - err` for every stored rate, and
return `1 - total_rate`. -/
def ErrorCalculator.calculate_total_error (c : ErrorCalculator) : ℚ :=
  1 - c.err.foldl (fun total_rate p => total_rate * (1 - p.2)) 1

/-- `ErrorCalculator.adjust_bitrate(bitrate) = bitrate * (1 - total_err)`. -/
def ErrorCalculator.adjust_bitrate (c : ErrorCalculator) (bitrate : ℚ) : ℚ :=
  bitrate * (1 - c.calculate_total_error)

/-- `ErrorCalculator.calculate_needed_bitrate(target_bitrate)` divides by
`1 - total_err`; Python raises `ZeroDivisionError` when that is zero. -/
def ErrorCalculator.calculate_needed_bitrate (c : ErrorCalculator)
    (target_bitrate : ℚ) : Option ℚ :=
  if 1 - c.calculate_total_error = 0 then none
  else some (target_bitrate / (1 - c.calculate_total_error))

/-- One call to `add_error_source`: a rate plus an optional caller name. -/
structure AddOp where
  rate : ℚ
  name : Option String

/-- Whether an `add_error_source` call takes the auto-naming branch
(no name, or the falsy empty string). -/
def AddOp.isAuto (op : AddOp) : Bool :=
  match op.name with
  | none => true
  | some s => s == ""

/-- Apply one `add_error_source` call to a calculator. -/
def applyAdd (c : ErrorCalculator) (op : AddOp) : ErrorCalculator :=
  c.add_error_source op.rate op.name

/-- Run a sequence of `add_error_source` calls in order. -/
def ErrorCalculator.runAdds (c : ErrorCalculator) (ops : List AddOp) : ErrorCalculator :=
  ops.foldl applyAdd c

/-- Invariant: no auto-generated name with index at or above the current
counter occurs among the stored keys. -/
def ErrorCalculator.autoFresh (c : ErrorCalculator) : Prop :=
  ∀ k, c.err_num ≤ k → autoName k ∉ dictKeys c.err

/-- `Endpoint` (src/interfaces.py): three per-node delay scalars, in
seconds, immutable after construction. -/
structure Endpoint where
  transmission_delay_per_qubit : ℝ
  processing_delay_per_qubit : ℝ
  fixed_delay : ℝ

/-- `Endpoint.calc_total_send_delay(T)`: one fixed overhead plus linear
per-qubit transmission and processing cost. -/
def Endpoint.calc_total_send_delay (ep : Endpoint) (T : ℝ) : ℝ :=
  ep.fixed_delay + T * ep.transmission_delay_per_qubit
    + T * ep.processing_delay_per_qubit

/-- `Endpoint.calc_total_receive_delay(T)`: the whole overhead (fixed
included) is paid per qubit. -/
def Endpoint.calc_total_receive_delay (ep : Endpoint) (T : ℝ) : ℝ :=
  T * (ep.fixed_delay + ep.transmission_delay_per_qubit
    + ep.processing_delay_per_qubit)

/-- State of `Simulator` (src/interfaces.py): the (sender, receiver)
endpoint pair, fiber geometry, the `testing_mode` flag and the two
error-source dicts. -/
structure Simulator where
  endpoints : Endpoint × Endpoint
  length : ℝ
  len_err : ℝ
  fiber_speed : ℝ
  testing_mode : Bool
  base_error_sources : List (String × ℝ)
  additional_error_sources : List (String × ℝ)

/-- `Simulator.__init__`: stores the configuration and populates
`base_error_sources` with the single fiber-attenuation entry
`{"fiber_length": 1 - math.exp(-len_err * length)}`;
`additional_error_sources` starts empty. -/
noncomputable def Simulator.init (endpoints : Endpoint × Endpoint)
    (length len_err fiber_speed : ℝ) (testing_mode : Bool) : Simulator :=
  ⟨endpoints, length, len_err, fiber_speed, testing_mode,
    [("fiber_length", 1 - Real.exp (-len_err * length))], []⟩

/-- `Simulator.add_err_source(name, err_rate)`: writes into
`additional_error_sources` only. -/
def Simulator.add_err_source (s : Simulator) (name : String) (err_rate : ℝ) :
    Simulator :=
  ⟨s.endpoints, s.length, s.len_err, s.fiber_speed, s.testing_mode,
    s.base_error_sources, updateDict s.additional_error_sources name err_rate⟩

/-- `Simulator.change_endpoints(new_endpoints)`: wholesale replacement of
the endpoint pair. -/
def Simulator.change_endpoints (s : Simulator) (new_endpoints : Endpoint × Endpoint) :
    Simulator :=
  ⟨new_endpoints, s.length, s.len_err, s.fiber_speed, s.testing_mode,
    s.base_error_sources, s.additional_error_sources⟩

/-- The dict `error_sources` built inside `Simulator.get_total_error`:
a copy of `base_error_sources`, updated (`dict.update`) with
`additional_error_sources` when `testing_mode` is set. -/
def Simulator.mergedSources (s : Simulator) : List (String × ℝ) :=
  if s.testing_mode then
    s.additional_error_sources.foldl (fun acc p => updateDict acc p.1 p.2)
      s.base_error_sources
  else s.base_error_sources

/-- `Simulator.get_total_error()`: multiply the survival probabilities
`1 - err` of every merged source and return `1 -` the product. -/
def Simulator.get_total_error (s : Simulator) : ℝ :=
  1 - (s.mergedSources).foldl (fun total_success p => total_success * (1 - p.2)) 1

/-- Python `int(x)` applied to a float: truncation toward zero. -/
noncomputable def truncToZero (x : ℝ) : ℤ :=
  if 0 ≤ x then ⌊x⌋ else ⌈x⌉

/-- Result dict of `Simulator.run` and of
`Simulator.estimate_key_generation_time` (same keys, only their order in
the Python dict literal differs). -/
structure RunResult where
  qubits_needed : ℤ
  total_time_seconds : ℝ
  qubit_loss_rate : ℝ

/-- `Simulator.run(key_len)`: required qubits `T = ceil(key_len / p)` for
survival probability `p`, then total time
`send_delay(T) + receive_delay(T) + 2 * (length / fiber_speed)`.
`none` models the `ZeroDivisionError` raised when `p == 0` (and, after
that, when `fiber_speed == 0`). -/
noncomputable def Simulator.run (s : Simulator) (key_len : ℤ) : Option RunResult :=
  let total_error := s.get_total_error
  let survival_prob := 1 - total_error
  if survival_prob = 0 then none else
  let T : ℤ := ⌈(key_len : ℝ) / survival_prob⌉
  if s.fiber_speed = 0 then none else
  let send_time := s.endpoints.1.calc_total_send_delay T
  let recv_time := s.endpoints.2.calc_total_receive_delay T
  let prop_delay := s.length / s.fiber_speed
  some ⟨T, send_time + recv_time + 2 * prop_delay, total_error⟩

/-- Result dict of `Simulator.run_for`. -/
structure RunForResult where
  qubits_needed : ℤ
  qubits_possible : ℤ
  key_generated : ℤ
  qubit_loss_rate : ℝ

/-- The amortized per-qubit time used by `Simulator.run_for`:
`send_delay(1) + receive_delay(1) + 2 * prop_delay`. -/
noncomputable def Simulator.per_qubit_time (s : Simulator) : ℝ :=
  s.endpoints.1.calc_total_send_delay 1 + s.endpoints.2.calc_total_receive_delay 1
    + 2 * (s.length / s.fiber_speed)

/-- `Simulator.run_for(key_len, time)`: `T = ceil(key_len / p)` as in
`run`, `max_qubits = int(time // per_qubit_time)` (float floor division),
`expected_key_length = int(max_qubits * p)` (truncation toward zero).
`none` models the `ZeroDivisionError`s (`p == 0`, `fiber_speed == 0`,
`per_qubit_time == 0`). -/
noncomputable def Simulator.run_for (s : Simulator) (key_len : ℤ) (time : ℝ) :
    Option RunForResult :=
  let total_error := s.get_total_error
  let survival_prob := 1 - total_error
  if survival_prob = 0 then none else
  let T : ℤ := ⌈(key_len : ℝ) / survival_prob⌉
  if s.fiber_speed = 0 then none else
  if s.per_qubit_time = 0 then none else
  let max_qubits : ℤ := ⌊time / s.per_qubit_time⌋
  let expected_key_length : ℤ := truncToZero ((max_qubits : ℝ) * survival_prob)
  some ⟨T, max_qubits, expected_key_length, total_error⟩

/-- `Simulator.estimate_key_generation_time(key_len)`: embedded from its
own body (lines 72-92 of src/interfaces.py), which repeats `run`'s
computation verbatim; the returned dict lists the same keys in a
different order, which an unordered mapping cannot distinguish. -/
noncomputable def Simulator.estimate_key_generation_time (s : Simulator)
    (key_len : ℤ) : Option RunResult :=
  let total_error := s.get_total_error
  let survival_prob := 1 - total_error
  if survival_prob = 0 then none else
  let T : ℤ := ⌈(key_len : ℝ) / survival_prob⌉
  if s.fiber_speed = 0 then none else
  let send_time := s.endpoints.1.calc_total_send_delay T
  let recv_time := s.endpoints.2.calc_total_receive_delay T
  let prop_delay := s.length / s.fiber_speed
  some ⟨T, send_time + recv_time + 2 * prop_delay, total_error⟩

/-- The product of survival probabilities `1 - e` over an error-source
dict: the quantity the spec composes multiplicatively. -/
def successProd (l : List (String × ℝ)) : ℝ :=
  (l.map (fun p => 1 - p.2)).prod

/-- The scalar registered by `ErrorCalculator.add_length_dependent_error`
(src/qkd_calculator.py): `1 - math.pow(1 - rate, L)`, i.e. compounded
per-metre survival, with `math.pow` on floats modelled as real
exponentiation. -/
noncomputable def lengthDependentError (err_rate_per_meter L : ℝ) : ℝ :=
  1 - (1 - err_rate_per_meter) ^ L

/-- An endpoint with no per-qubit cost and a 2-second fixed overhead. -/
def epSender2 : Endpoint := ⟨0, 0, 2⟩

/-- An endpoint with all delays zero. -/
def epIdle : Endpoint := ⟨0, 0, 0⟩

/-- Concrete error-free link (`len_err = 0`): survival probability 1,
per-qubit time 2 s. -/
noncomputable def simRunW : Simulator :=
  Simulator.init (epSender2, epIdle) 0 0 1 false

/-- The same link with `testing_mode` on and a total additional error of
1: survival probability 0. -/
noncomputable def simRunZero : Simulator :=
  (Simulator.init (epSender2, epIdle) 0 0 1 true).add_err_source "blocked" 1

/-- An error-free link whose `fiber_speed` is 0: `run` divides by zero in
`prop_delay` even though the survival probability is 1. -/
noncomputable def simRunFs0 : Simulator :=
  Simulator.init (epSender2, epIdle) 0 0 0 false

/-- Link with survival probability 1/2 (one additional source of rate 1/2
in testing mode) and per-qubit time 2 s. -/
noncomputable def simHalf : Simulator :=
  (Simulator.init (epSender2, epIdle) 0 0 1 true).add_err_source "noise" (1/2)

/-- A simulator whose additional source reuses the base name
"fiber_length": `dict.update` then hides the base entry. -/
noncomputable def simShadow : Simulator :=
  (Simulator.init (epIdle, epIdle) 1 1 1 true).add_err_source "fiber_length" (1/2)

-- Sanity checks of the decimal renderer and the dict model against
-- Python behaviour (str(0)="0", str(42)="42", dict overwrite in place).
theorem autoName_zero : autoName 0 = "err_source0" := by decide
theorem autoName_one : autoName 1 = "err_source1" := by decide
theorem autoName_two : autoName 2 = "err_source2" := by decide
example : decStr 0 = "0" := by decide
example : decStr 7 = "7" := by decide
example : decStr 42 = "42" := by decide
example : decStr 120 = "120" := by decide
example : autoName 3 = "err_source3" := by decide
example : updateDict [("a", (1 : ℚ)), ("b", 2)] "a" 5 = [("a", 5), ("b", 2)] := by decide
example : updateDict [("a", (1 : ℚ))] "b" 2 = [("a", 1), ("b", 2)] := by decide
example :
    ((ErrorCalculator.init 4).add_error_source (1/2) none).err
      = [("err_source0", 1/2)] := by
  norm_num +decide [ErrorCalculator.init, ErrorCalculator.add_error_source, updateDict,
    autoName_zero]
example :
    (((ErrorCalculator.init 4).add_error_source (1/2) none).add_error_source
        (1/5) none).err
      = [("err_source0", 1/2), ("err_source1", 1/5)] := by
  norm_num +decide [ErrorCalculator.init, ErrorCalculator.add_error_source, updateDict,
    autoName_zero, autoName_one]
-- The _basic_error_test expected values: 0.5, then 0.9.
example :
    (((ErrorCalculator.init 4).add_error_source (1/2) none)).calculate_total_error
      = 1/2 := by
  norm_num +decide [ErrorCalculator.init, ErrorCalculator.add_error_source, updateDict,
    ErrorCalculator.calculate_total_error, autoName_zero]
example :
    (((((ErrorCalculator.init 4).add_error_source (1/2) none).add_error_source
        (1/5) none).add_error_source (3/4) none)).calculate_total_error
      = 9/10 := by
  norm_num +decide [ErrorCalculator.init, ErrorCalculator.add_error_source, updateDict,
    ErrorCalculator.calculate_total_error, autoName_zero, autoName_one,
    autoName_two]

/-- Folding multiplication over a list, starting from `a`, is `a` times
the product of the images. -/
theorem foldl_mul_eq_prod {α M : Type} [CommMonoid M] (f : α → M) :
    ∀ (l : List α) (a : M), l.foldl (fun acc x => acc * f x) a = a * (l.map f).prod := by
  intro l
  induction l with
  | nil => intro a; simp
  | cons x xs ih =>
      intro a
      simp only [List.foldl_cons, List.map_cons, List.prod_cons, ih, mul_assoc]

/-- A product of factors that all lie in `(0, 1]` lies in `(0, 1]`. -/
theorem list_prod_pos_le_one {K : Type} [LinearOrderedField K] :
    ∀ l : List K, (∀ x ∈ l, 0 < x ∧ x ≤ 1) → 0 < l.prod ∧ l.prod ≤ 1 := by
  intro l
  induction l with
  | nil => intro _; simp
  | cons x xs ih =>
      intro h
      obtain ⟨hx, hxs⟩ : (0 < x ∧ x ≤ 1) ∧ ∀ y ∈ xs, 0 < y ∧ y ≤ 1 := by
        constructor
        · exact h x (List.mem_cons_self x xs)
        · intro y hy; exact h y (List.mem_cons_of_mem x hy)
      obtain ⟨hp, hp1⟩ := ih hxs
      refine ⟨by simpa using mul_pos hx.1 hp, ?_⟩
      calc x * xs.prod ≤ 1 * 1 :=
            mul_le_mul hx.2 hp1 hp.le (by linarith [hx.1, hx.2])
        _ = 1 := by ring

/-- Updating a dict at an absent key appends the new binding. -/
theorem updateDict_of_fresh {β : Type} :
    ∀ (l : List (String × β)) (k : String) (v : β), k ∉ dictKeys l →
      updateDict l k v = l ++ [(k, v)] := by
  intro l
  induction l with
  | nil => intro k v _; rfl
  | cons p rest ih =>
      intro k v hk
      have hne : p.1 ≠ k := by
        intro h
        exact hk (by simp [dictKeys, h])
      simp only [updateDict, if_neg hne, List.cons_append, List.cons.injEq, true_and]
      refine ih k v ?_
      intro h
      exact hk (by simp [dictKeys] at h ⊢; right; exact h)

/-- Keys after a dict update: the old keys plus possibly the new one. -/
theorem mem_dictKeys_updateDict {β : Type} :
    ∀ (l : List (String × β)) (k : String) (v : β) (k' : String),
      k' ∈ dictKeys (updateDict l k v) → k' ∈ dictKeys l ∨ k' = k := by
  intro l
  induction l with
  | nil => intro k v k' h; simp [updateDict, dictKeys] at h; right; exact h
  | cons p rest ih =>
      intro k v k' h
      by_cases hpk : p.1 = k
      · simp only [updateDict, if_pos hpk, dictKeys, List.map_cons, List.mem_cons] at h
        rcases h with h | h
        · right; exact h
        · left
          simp only [dictKeys, List.map_cons, List.mem_cons]
          right; exact h
      · simp only [updateDict, if_neg hpk, dictKeys, List.map_cons, List.mem_cons] at h
        rcases h with h | h
        · left
          simp only [dictKeys, List.map_cons, List.mem_cons]
          left; exact h
        · rcases ih k v k' h with h' | h'
          · left
            simp only [dictKeys, List.map_cons, List.mem_cons]
            right
            simpa [dictKeys] using h'
          · right; exact h'

/-- `dict.update` with key-disjoint, duplicate-free entries is plain
concatenation. -/
theorem foldl_updateDict_append {β : Type} :
    ∀ (add base : List (String × β)),
      (∀ p ∈ add, p.1 ∉ dictKeys base) → (dictKeys add).Nodup →
      add.foldl (fun acc p => updateDict acc p.1 p.2) base = base ++ add := by
  intro add
  induction add with
  | nil => intro base _ _; simp
  | cons p rest ih =>
      intro base hdisj hnodup
      have hfresh : p.1 ∉ dictKeys base := hdisj p (List.mem_cons_self p rest)
      have hstep : updateDict base p.1 p.2 = base ++ [(p.1, p.2)] :=
        updateDict_of_fresh base p.1 p.2 hfresh
      have hnodup' : (dictKeys rest).Nodup := by
        simpa [dictKeys] using (List.nodup_cons.mp (by simpa [dictKeys] using hnodup)).2
      have hhead : p.1 ∉ dictKeys rest :=
        (List.nodup_cons.mp (by simpa [dictKeys] using hnodup)).1
      have hdisj' : ∀ q ∈ rest, q.1 ∉ dictKeys (base ++ [(p.1, p.2)]) := by
        intro q hq hmem
        simp only [dictKeys, List.map_append, List.mem_append, List.map_cons,
          List.map_nil, List.mem_singleton] at hmem
        rcases hmem with h | h
        · exact hdisj q (List.mem_cons_of_mem p hq) h
        · exact hhead (by simpa [dictKeys, h] using List.mem_map_of_mem Prod.fst hq)
      calc (p :: rest).foldl (fun acc q => updateDict acc q.1 q.2) base
          = rest.foldl (fun acc q => updateDict acc q.1 q.2) (base ++ [(p.1, p.2)]) := by
            simp [hstep]
        _ = base ++ [(p.1, p.2)] ++ rest := ih (base ++ [(p.1, p.2)]) hdisj' hnodup'
        _ = base ++ p :: rest := by simp

/-- Reading the rendered digits back yields the number, for sufficient fuel. -/
theorem fromDigits_decDigits :
    ∀ (fuel n : Nat), n ≤ fuel → fromDigits (decDigits fuel n) = n := by
  intro fuel
  induction fuel with
  | zero =>
      intro n h
      have : n = 0 := Nat.le_zero.mp h
      subst this
      rfl
  | succ f ih =>
      intro n h
      by_cases h0 : n = 0
      · subst h0; simp [decDigits, fromDigits]
      · have hdiv : n / 10 ≤ f := by
          have : n / 10 < n := Nat.div_lt_self (Nat.pos_of_ne_zero h0) (by norm_num)
          omega
        simp only [decDigits, if_neg h0, fromDigits, ih (n / 10) hdiv]
        exact Nat.mod_add_div n 10

/-- Every rendered digit is an actual decimal digit. -/
theorem decDigits_lt_ten :
    ∀ (fuel n : Nat), ∀ d ∈ decDigits fuel n, d < 10 := by
  intro fuel
  induction fuel with
  | zero => intro n d hd; simp [decDigits] at hd
  | succ f ih =>
      intro n d hd
      by_cases h0 : n = 0
      · subst h0; simp [decDigits] at hd
      · simp only [decDigits, if_neg h0, List.mem_cons] at hd
        rcases hd with hd | hd
        · subst hd; exact Nat.mod_lt n (by norm_num)
        · exact ih (n / 10) d hd

/-- The digit-to-character map is injective on decimal digits. -/
theorem digitChr_inj :
    ∀ d < 10, ∀ e < 10, digitChr d = digitChr e → d = e := by decide

/-- Mapping `digitChr` over lists of decimal digits is injective. -/
theorem map_digitChr_inj :
    ∀ (l₁ l₂ : List Nat), (∀ d ∈ l₁, d < 10) → (∀ d ∈ l₂, d < 10) →
      l₁.map digitChr = l₂.map digitChr → l₁ = l₂ := by
  intro l₁
  induction l₁ with
  | nil =>
      intro l₂ _ _ h
      cases l₂ with
      | nil => rfl
      | cons y ys => simp at h
  | cons x xs ih =>
      intro l₂ h₁ h₂ h
      cases l₂ with
      | nil => simp at h
      | cons y ys =>
          simp only [List.map_cons, List.cons.injEq] at h
          have hx : x = y :=
            digitChr_inj x (h₁ x (List.mem_cons_self x xs))
              y (h₂ y (List.mem_cons_self y ys)) h.1
          have hxs : xs = ys := by
            refine ih ys ?_ ?_ h.2
            · intro d hd; exact h₁ d (List.mem_cons_of_mem x hd)
            · intro d hd; exact h₂ d (List.mem_cons_of_mem y hd)
          rw [hx, hxs]

/-- A nonzero number never renders to the string "0". -/
theorem decStr_ne_zero_str (n : Nat) (h0 : n ≠ 0) : decStr n ≠ "0" := by
  intro h
  have hmk : "0" = String.mk ['0'] := rfl
  rw [decStr, if_neg h0, hmk] at h
  have hdata : ((decDigits n n).reverse).map digitChr = ['0'] := by injection h
  obtain ⟨d, hd, hchr⟩ : ∃ d, (decDigits n n).reverse = [d] ∧ digitChr d = '0' := by
    cases hrev : (decDigits n n).reverse with
    | nil => rw [hrev] at hdata; simp at hdata
    | cons d tail =>
        rw [hrev] at hdata
        simp only [List.map_cons, List.cons.injEq] at hdata
        have htail : tail = [] := by
          cases tail with
          | nil => rfl
          | cons t ts => simp at hdata
        exact ⟨d, by rw [htail], by exact hdata.1⟩
  have hdlt : d < 10 := by
    have : d ∈ decDigits n n := by
      have : d ∈ (decDigits n n).reverse := by rw [hd]; exact List.mem_singleton.mpr rfl
      exact List.mem_reverse.mp this
    exact decDigits_lt_ten n n d this
  have hd0 : d = 0 := digitChr_inj d hdlt 0 (by norm_num) (by rw [hchr]; rfl)
  have hdig : decDigits n n = [0] := by
    have := congrArg List.reverse hd
    simpa [hd0] using this
  have : n = 0 := by
    have hrt := fromDigits_decDigits n n le_rfl
    rw [hdig] at hrt
    simpa [fromDigits] using hrt.symm
  exact h0 this

/-- The decimal renderer is injective: distinct numbers have distinct
decimal strings. -/
theorem decStr_inj (m n : Nat) (h : decStr m = decStr n) : m = n := by
  by_cases hm : m = 0 <;> by_cases hn : n = 0
  · rw [hm, hn]
  · exact absurd h.symm (by rw [hm]; exact fun hc => decStr_ne_zero_str n hn (by rw [hc]; rfl))
  · exact absurd h (by rw [hn]; exact fun hc => decStr_ne_zero_str m hm (by rw [hc]; rfl))
  · rw [decStr, if_neg hm, decStr, if_neg hn] at h
    have hdata : ((decDigits m m).reverse).map digitChr
        = ((decDigits n n).reverse).map digitChr := by injection h
    have hrev : (decDigits m m).reverse = (decDigits n n).reverse := by
      refine map_digitChr_inj _ _ ?_ ?_ hdata
      · intro d hd; exact decDigits_lt_ten m m d (List.mem_reverse.mp hd)
      · intro d hd; exact decDigits_lt_ten n n d (List.mem_reverse.mp hd)
    have hdig : decDigits m m = decDigits n n := by
      have := congrArg List.reverse hrev
      simpa using this
    have h₁ := fromDigits_decDigits m m le_rfl
    have h₂ := fromDigits_decDigits n n le_rfl
    rw [hdig] at h₁
    exact h₁.symm.trans h₂

/-- Auto-generated names with distinct counters are distinct strings. -/
theorem autoName_inj (m n : Nat) (h : autoName m = autoName n) : m = n := by
  have hdata : ("err_source".data ++ (decStr m).data)
      = ("err_source".data ++ (decStr n).data) := by
    have : ("err_source" ++ decStr m).data = ("err_source" ++ decStr n).data :=
      congrArg String.data h
    exact this
  have hstr : decStr m = decStr n := by
    have hd := List.append_cancel_left hdata
    cases hsm : decStr m with
    | mk dm =>
        cases hsn : decStr n with
        | mk dn =>
            rw [hsm, hsn] at hd
            exact congrArg String.mk hd
  exact decStr_inj m n hstr

/-- Every auto-generated name is at least 10 characters long. -/
theorem autoName_length (n : Nat) : 10 ≤ (autoName n).length := by
  have h10 : ("err_source" : String).length = 10 := by decide
  rw [autoName, String.length_append, h10]
  omega

/-- A string shorter than 10 characters is never an auto-generated name. -/
theorem short_ne_autoName (s : String) (hs : s.length < 10) (k : Nat) :
    s ≠ autoName k := by
  intro h
  have := autoName_length k
  rw [← h] at this
  omega

/-- `add_error_source` always stores through `updateDict` at `storedKey`. -/
theorem add_error_source_err_eq (c : ErrorCalculator) (rate : ℚ) (name : Option String) :
    (c.add_error_source rate name).err = updateDict c.err (c.storedKey name) rate := by
  cases name with
  | none => rfl
  | some s =>
      by_cases hs : s = "" <;>
        simp [ErrorCalculator.add_error_source, ErrorCalculator.storedKey, hs]

/-- `add_error_source` never touches the stored `length`. -/
theorem add_error_source_length_eq (c : ErrorCalculator) (rate : ℚ) (name : Option String) :
    (c.add_error_source rate name).length = c.length := by
  cases name with
  | none => rfl
  | some s => by_cases hs : s = "" <;> simp [ErrorCalculator.add_error_source, hs]

/-- The counter after `add_error_source`: bumped exactly on the
auto-naming branch. -/
theorem add_error_source_counter (c : ErrorCalculator) (op : AddOp) :
    (applyAdd c op).err_num = c.err_num + (if op.isAuto then 1 else 0) := by
  cases hop : op.name with
  | none => simp [applyAdd, ErrorCalculator.add_error_source, AddOp.isAuto, hop]
  | some s =>
      by_cases hs : s = "" <;>
        simp [applyAdd, ErrorCalculator.add_error_source, AddOp.isAuto, hop, hs]

/-- The counter never decreases across a single call. -/
theorem applyAdd_counter_le (c : ErrorCalculator) (op : AddOp) :
    c.err_num ≤ (applyAdd c op).err_num := by
  rw [add_error_source_counter]
  split <;> omega

/-- The counter never decreases across a sequence of calls. -/
theorem runAdds_counter_le (ops : List AddOp) :
    ∀ c : ErrorCalculator, c.err_num ≤ (c.runAdds ops).err_num := by
  induction ops with
  | nil => intro c; exact le_rfl
  | cons op rest ih =>
      intro c
      calc c.err_num ≤ (applyAdd c op).err_num := applyAdd_counter_le c op
        _ ≤ ((applyAdd c op).runAdds rest).err_num := ih (applyAdd c op)
        _ = (c.runAdds (op :: rest)).err_num := rfl

/-- Running a concatenation of call sequences runs them in order. -/
theorem runAdds_append (c : ErrorCalculator) (pre suf : List AddOp) :
    c.runAdds (pre ++ suf) = (c.runAdds pre).runAdds suf := by
  simp [ErrorCalculator.runAdds, List.foldl_append]

/-- The counter counts exactly the auto-named calls. -/
theorem runAdds_counter_count (ops : List AddOp) :
    ∀ c : ErrorCalculator,
      (c.runAdds ops).err_num = c.err_num + ops.countP (fun op => op.isAuto) := by
  induction ops with
  | nil => intro c; simp [ErrorCalculator.runAdds]
  | cons op rest ih =>
      intro c
      have hstep : (c.runAdds (op :: rest)) = ((applyAdd c op).runAdds rest) := rfl
      rw [hstep, ih, add_error_source_counter]
      by_cases hauto : op.isAuto
      · simp [List.countP_cons, hauto]
        omega
      · simp [List.countP_cons, hauto]

/-- A freshly constructed calculator satisfies the freshness invariant. -/
theorem autoFresh_init (L : ℚ) : (ErrorCalculator.init L).autoFresh := by
  intro k _ hk
  simp [ErrorCalculator.init, dictKeys] at hk

/-- One `add_error_source` call whose caller-supplied name (if any) is
non-empty and not of the auto-generated shape preserves freshness. -/
theorem autoFresh_step (c : ErrorCalculator) (op : AddOp) (hc : c.autoFresh)
    (hop : ∀ s, op.name = some s → s ≠ "" ∧ ∀ k, s ≠ autoName k) :
    (applyAdd c op).autoFresh := by
  cases hname : op.name with
  | none =>
      intro k hk hmem
      have herr : (applyAdd c op).err = updateDict c.err (autoName c.err_num) op.rate := by
        simp [applyAdd, ErrorCalculator.add_error_source, hname]
      have hnum : (applyAdd c op).err_num = c.err_num + 1 := by
        simp [applyAdd, ErrorCalculator.add_error_source, hname]
      rw [herr] at hmem
      rw [hnum] at hk
      rcases mem_dictKeys_updateDict c.err (autoName c.err_num) op.rate (autoName k) hmem with
        h | h
      · exact hc k (by omega) h
      · have : k = c.err_num := autoName_inj k c.err_num h
        omega
  | some s =>
      obtain ⟨hs, hshape⟩ := hop s hname
      intro k hk hmem
      have herr : (applyAdd c op).err = updateDict c.err s op.rate := by
        simp [applyAdd, ErrorCalculator.add_error_source, hname, hs]
      have hnum : (applyAdd c op).err_num = c.err_num := by
        simp [applyAdd, ErrorCalculator.add_error_source, hname, hs]
      rw [herr] at hmem
      rw [hnum] at hk
      rcases mem_dictKeys_updateDict c.err s op.rate (autoName k) hmem with h | h
      · exact hc k hk h
      · exact hshape k h.symm

/-- Freshness is preserved along any run of calls whose caller-supplied
names are non-empty and not of the auto-generated shape. -/
theorem autoFresh_runAdds (ops : List AddOp) :
    ∀ c : ErrorCalculator, c.autoFresh →
      (∀ op ∈ ops, ∀ s, op.name = some s → s ≠ "" ∧ ∀ k, s ≠ autoName k) →
      (c.runAdds ops).autoFresh := by
  induction ops with
  | nil => intro c hc _; exact hc
  | cons op rest ih =>
      intro c hc hops
      have hstep : (c.runAdds (op :: rest)) = ((applyAdd c op).runAdds rest) := rfl
      rw [hstep]
      refine ih (applyAdd c op) ?_ ?_
      · exact autoFresh_step c op hc (hops op (List.mem_cons_self op rest))
      · intro q hq; exact hops q (List.mem_cons_of_mem op hq)

/-- From a fresh state, an auto-named call appends a brand-new entry:
it never overwrites an existing one. -/
theorem autoFresh_auto_append (c : ErrorCalculator) (hc : c.autoFresh) (rate : ℚ) :
    (c.add_error_source rate none).err = c.err ++ [(autoName c.err_num, rate)] := by
  have hfresh : autoName c.err_num ∉ dictKeys c.err := hc c.err_num le_rfl
  have herr : (c.add_error_source rate none).err
      = updateDict c.err (autoName c.err_num) rate := rfl
  rw [herr, updateDict_of_fresh c.err (autoName c.err_num) rate hfresh]

/-- `get_total_error` in closed form: one minus the product of survival
probabilities over the merged sources. -/
theorem get_total_error_eq (s : Simulator) :
    s.get_total_error = 1 - successProd s.mergedSources := by
  rw [Simulator.get_total_error, successProd,
    foldl_mul_eq_prod (fun p => 1 - p.2) s.mergedSources 1, one_mul]

/-- Concrete evaluation: the error-free link loses nothing. -/
theorem gte_simRunW : simRunW.get_total_error = 0 := by
  simp [Simulator.get_total_error, Simulator.mergedSources, simRunW, Simulator.init]

/-- Concrete evaluation: the blocked link loses everything. -/
theorem gte_simRunZero : simRunZero.get_total_error = 1 := by
  norm_num +decide [Simulator.get_total_error, Simulator.mergedSources, simRunZero,
    Simulator.init, Simulator.add_err_source, updateDict]

/-- Concrete evaluation: zero fiber speed does not change the loss rate. -/
theorem gte_simRunFs0 : simRunFs0.get_total_error = 0 := by
  simp [Simulator.get_total_error, Simulator.mergedSources, simRunFs0, Simulator.init]

/-- Concrete evaluation: one 1/2-rate source halves survival. -/
theorem gte_simHalf : simHalf.get_total_error = 1/2 := by
  norm_num +decide [Simulator.get_total_error, Simulator.mergedSources, simHalf,
    Simulator.init, Simulator.add_err_source, updateDict, Real.exp_zero]

/-- Concrete evaluation: per-qubit time of the 2-second-sender link. -/
theorem pqt_simHalf : simHalf.per_qubit_time = 2 := by
  norm_num [Simulator.per_qubit_time, simHalf, Simulator.init,
    Simulator.add_err_source, Endpoint.calc_total_send_delay,
    Endpoint.calc_total_receive_delay, epSender2, epIdle]

/-- Concrete evaluation: the shadowing additional source fully replaces
the base fiber entry inside `get_total_error`. -/
theorem gte_simShadow : simShadow.get_total_error = 1/2 := by
  norm_num +decide [Simulator.get_total_error, Simulator.mergedSources, simShadow,
    Simulator.init, Simulator.add_err_source, updateDict]

/-- C1: `calculate_total_error()` equals `1 − Π(1−e_i)` over the
registered rates, is `0` for an empty registry, stays in `[0,1)` whenever
all rates lie in `[0,1)`, and does not decrease when a further source in
`[0,1)` is added to the registry (i.e. stored under a key not already
present, so that the multiset of rates grows by the new rate). -/
theorem c1_total_error_composition (c : ErrorCalculator) :
    c.calculate_total_error = 1 - (c.err.map (fun p => 1 - p.2)).prod
    ∧ (c.err = [] → c.calculate_total_error = 0)
    ∧ ((∀ p ∈ c.err, 0 ≤ p.2 ∧ p.2 < 1) →
        0 ≤ c.calculate_total_error ∧ c.calculate_total_error < 1)
    ∧ (∀ (rate : ℚ) (name : Option String), 0 ≤ rate → rate < 1 →
        (∀ p ∈ c.err, 0 ≤ p.2 ∧ p.2 < 1) →
        c.storedKey name ∉ dictKeys c.err →
        c.calculate_total_error ≤ (c.add_error_source rate name).calculate_total_error) := by
  have hform : ∀ d : ErrorCalculator,
      d.calculate_total_error = 1 - (d.err.map (fun p => 1 - p.2)).prod := by
    intro d
    rw [ErrorCalculator.calculate_total_error,
      foldl_mul_eq_prod (fun p => 1 - p.2) d.err 1, one_mul]
  have hbounds : ∀ d : ErrorCalculator, (∀ p ∈ d.err, 0 ≤ p.2 ∧ p.2 < 1) →
      ∀ x ∈ d.err.map (fun p => 1 - p.2), 0 < x ∧ x ≤ 1 := by
    intro d hb x hx
    obtain ⟨p, hp, rfl⟩ := List.mem_map.mp hx
    obtain ⟨h0, h1⟩ := hb p hp
    constructor <;> linarith
  refine ⟨hform c, ?_, ?_, ?_⟩
  · intro h
    rw [hform c, h]
    simp
  · intro hb
    obtain ⟨hpos, hle⟩ := list_prod_pos_le_one _ (hbounds c hb)
    rw [hform c]
    constructor <;> linarith
  · intro rate name h0 h1 hb hfresh
    have herr : (c.add_error_source rate name).err
        = c.err ++ [(c.storedKey name, rate)] := by
      rw [add_error_source_err_eq, updateDict_of_fresh _ _ _ hfresh]
    have hsplit : ((c.err ++ [(c.storedKey name, rate)]).map (fun p => 1 - p.2)).prod
        = (c.err.map (fun p => 1 - p.2)).prod * (1 - rate) := by
      simp [List.map_append, List.prod_append]
    have hP : 0 < (c.err.map fun p => 1 - p.2).prod :=
      (list_prod_pos_le_one _ (hbounds c hb)).1
    have hmul : (c.err.map fun p => 1 - p.2).prod * (1 - rate)
        ≤ (c.err.map fun p => 1 - p.2).prod * 1 :=
      mul_le_mul_of_nonneg_left (by linarith) hP.le
    rw [hform c, hform (c.add_error_source rate name), herr, hsplit]
    linarith

/-- Witness for C1 at the concrete calculator `ErrorCalculator(4)` holding
one source of rate 1/2, adding a fresh source "b" of rate 1/3. -/
theorem c1_total_error_composition_witness :
    (∀ p ∈ (⟨4, [("a", 1/2)], 0⟩ : ErrorCalculator).err, 0 ≤ p.2 ∧ p.2 < 1)
    ∧ (0 ≤ (⟨4, [("a", 1/2)], 0⟩ : ErrorCalculator).calculate_total_error
        ∧ (⟨4, [("a", 1/2)], 0⟩ : ErrorCalculator).calculate_total_error < 1)
    ∧ (⟨4, [("a", 1/2)], 0⟩ : ErrorCalculator).calculate_total_error
        ≤ ((⟨4, [("a", 1/2)], 0⟩ : ErrorCalculator).add_error_source (1/3)
            (some "b")).calculate_total_error := by
  have hb : ∀ p ∈ (⟨4, [("a", 1/2)], 0⟩ : ErrorCalculator).err, 0 ≤ p.2 ∧ p.2 < 1 := by
    intro p hp
    simp only [List.mem_singleton] at hp
    rw [hp]
    norm_num
  have hfresh : (⟨4, [("a", 1/2)], 0⟩ : ErrorCalculator).storedKey (some "b")
      ∉ dictKeys (⟨4, [("a", 1/2)], 0⟩ : ErrorCalculator).err := by
    simp +decide [ErrorCalculator.storedKey, dictKeys]
  exact ⟨hb, (c1_total_error_composition _).2.2.1 hb,
    (c1_total_error_composition _).2.2.2 (1/3) (some "b") (by norm_num) (by norm_num)
      hb hfresh⟩

/-- C4: for a total error below 1, `calculate_needed_bitrate` succeeds and
`adjust_bitrate` is its exact left inverse. -/
theorem c4_bitrate_inverse (c : ErrorCalculator) (x : ℚ)
    (h : c.calculate_total_error < 1) :
    (c.calculate_needed_bitrate x).map c.adjust_bitrate = some x := by
  have hne : 1 - c.calculate_total_error ≠ 0 := by
    intro h0
    rw [sub_eq_zero] at h0
    exact absurd h0.symm (ne_of_lt h)
  rw [ErrorCalculator.calculate_needed_bitrate, if_neg hne]
  simp only [Option.map_some', ErrorCalculator.adjust_bitrate, Option.some.injEq]
  exact div_mul_cancel₀ x hne

/-- Witness for C4 at the calculator holding one source of rate 1/2 and
target bitrate 5. -/
theorem c4_bitrate_inverse_witness :
    (⟨4, [("a", 1/2)], 0⟩ : ErrorCalculator).calculate_total_error < 1
    ∧ ((⟨4, [("a", 1/2)], 0⟩ : ErrorCalculator).calculate_needed_bitrate 5).map
        (⟨4, [("a", 1/2)], 0⟩ : ErrorCalculator).adjust_bitrate = some 5 := by
  have h : (⟨4, [("a", 1/2)], 0⟩ : ErrorCalculator).calculate_total_error < 1 := by
    norm_num [ErrorCalculator.calculate_total_error]
  exact ⟨h, c4_bitrate_inverse _ 5 h⟩

/-- C5: the two `Endpoint` delay formulas, with their deliberate
asymmetry: at `T = 0` receiving is free while sending still pays the
fixed overhead. -/
theorem c5_endpoint_delay_model (ep : Endpoint) (T : ℝ) :
    ep.calc_total_send_delay T
        = ep.fixed_delay + T * ep.transmission_delay_per_qubit
          + T * ep.processing_delay_per_qubit
    ∧ ep.calc_total_receive_delay T
        = T * (ep.fixed_delay + ep.transmission_delay_per_qubit
          + ep.processing_delay_per_qubit)
    ∧ ep.calc_total_receive_delay 0 = 0
    ∧ ep.calc_total_send_delay 0 = ep.fixed_delay := by
  refine ⟨rfl, rfl, ?_, ?_⟩ <;>
    simp [Endpoint.calc_total_receive_delay, Endpoint.calc_total_send_delay]

/-- C7: `estimate_key_generation_time` repeats `run`'s computation line
for line, so the two entry points agree on every simulator state and
every requested key length (including the failure cases). -/
theorem c7_estimate_eq_run (s : Simulator) (key_len : ℤ) :
    s.estimate_key_generation_time key_len = s.run key_len := rfl

/-- C10: construction fills `base_error_sources` with exactly the single
exponential-attenuation entry `1 - exp(-len_err*length)`; the only two
state-changing operations (`add_err_source`, which writes exclusively to
`additional_error_sources`, and `change_endpoints`) leave it untouched
(`get_total_error`, `run`, `run_for` and `estimate_key_generation_time`
are read-only functions of the state in code and model alike); and the
exponential model differs from the `(1-r)^L` compounding of
`ErrorCalculator.add_length_dependent_error`. -/
theorem c10_base_sources_fixed :
    (∀ (endpoints : Endpoint × Endpoint) (length len_err fiber_speed : ℝ) (tm : Bool),
      (Simulator.init endpoints length len_err fiber_speed tm).base_error_sources
        = [("fiber_length", 1 - Real.exp (-len_err * length))]
      ∧ (Simulator.init endpoints length len_err fiber_speed tm).additional_error_sources
        = [])
    ∧ (∀ (s : Simulator) (name : String) (rate : ℝ),
        (s.add_err_source name rate).base_error_sources = s.base_error_sources
        ∧ (s.add_err_source name rate).additional_error_sources
            = updateDict s.additional_error_sources name rate)
    ∧ (∀ (s : Simulator) (eps : Endpoint × Endpoint),
        (s.change_endpoints eps).base_error_sources = s.base_error_sources
        ∧ (s.change_endpoints eps).additional_error_sources
            = s.additional_error_sources)
    ∧ 1 - Real.exp (-(1:ℝ) * 1) ≠ lengthDependentError 1 1 := by
  refine ⟨fun _ _ _ _ _ => ⟨rfl, rfl⟩, fun _ _ _ => ⟨rfl, rfl⟩,
    fun _ _ => ⟨rfl, rfl⟩, ?_⟩
  intro h
  have h1 : (1 - (1:ℝ)) = 0 := by norm_num
  rw [lengthDependentError, h1, Real.zero_rpow one_ne_zero] at h
  have hexp : Real.exp (-(1:ℝ) * 1) = 0 := by linarith
  exact Real.exp_ne_zero _ hexp

/-- C2 (amended): for a positive target key length, survival probability
`p > 0` and a nonzero `fiber_speed`, `run` returns
`qubits_needed = ceil(key_len / p)`, the claimed total time and the loss
rate; for `p = 0` it fails (`ZeroDivisionError`) instead of returning a
result.  A nonzero `fiber_speed` must be assumed: `prop_delay` divides by
it (see the counterexample). -/
theorem c2_run_spec (s : Simulator) (key_len : ℤ) :
    (0 < key_len → 0 < 1 - s.get_total_error → s.fiber_speed ≠ 0 →
      s.run key_len
        = some ⟨⌈(key_len : ℝ) / (1 - s.get_total_error)⌉,
            s.endpoints.1.calc_total_send_delay
                ((⌈(key_len : ℝ) / (1 - s.get_total_error)⌉ : ℤ) : ℝ)
              + s.endpoints.2.calc_total_receive_delay
                ((⌈(key_len : ℝ) / (1 - s.get_total_error)⌉ : ℤ) : ℝ)
              + 2 * (s.length / s.fiber_speed),
            s.get_total_error⟩)
    ∧ (1 - s.get_total_error = 0 → s.run key_len = none) := by
  constructor
  · intro _hk hp hf
    simp only [Simulator.run]
    rw [if_neg (ne_of_gt hp), if_neg hf]
  · intro hp
    simp only [Simulator.run]
    rw [if_pos hp]

/-- C2 counterexample: `simRunFs0` has survival probability 1 (> 0) and a
positive requested key length, yet `run` raises (`none`) because
`fiber_speed = 0` — the claim promises a result for every configuration
with `p > 0`. -/
theorem c2_run_counterexample :
    0 < 1 - simRunFs0.get_total_error ∧ simRunFs0.run 1 = none := by
  have h1 : (1 : ℝ) - simRunFs0.get_total_error ≠ 0 := by
    rw [gte_simRunFs0]; norm_num
  have h2 : simRunFs0.fiber_speed = 0 := rfl
  constructor
  · rw [gte_simRunFs0]; norm_num
  · simp only [Simulator.run]
    rw [if_neg h1, if_pos h2]

/-- Witness for C2: the error-free 1 m/s link at key length 1, and the
fully blocked link where `run` fails. -/
theorem c2_run_spec_witness :
    (0 < (1:ℤ)) ∧ (0 < 1 - simRunW.get_total_error) ∧ (simRunW.fiber_speed ≠ 0)
    ∧ simRunW.run 1
        = some ⟨⌈((1:ℤ) : ℝ) / (1 - simRunW.get_total_error)⌉,
            simRunW.endpoints.1.calc_total_send_delay
                ((⌈((1:ℤ) : ℝ) / (1 - simRunW.get_total_error)⌉ : ℤ) : ℝ)
              + simRunW.endpoints.2.calc_total_receive_delay
                ((⌈((1:ℤ) : ℝ) / (1 - simRunW.get_total_error)⌉ : ℤ) : ℝ)
              + 2 * (simRunW.length / simRunW.fiber_speed),
            simRunW.get_total_error⟩
    ∧ (1 - simRunZero.get_total_error = 0) ∧ simRunZero.run 1 = none := by
  have hp : 0 < 1 - simRunW.get_total_error := by rw [gte_simRunW]; norm_num
  have hf : simRunW.fiber_speed ≠ 0 := by
    have h1 : simRunW.fiber_speed = 1 := rfl
    rw [h1]; norm_num
  have hz : 1 - simRunZero.get_total_error = 0 := by rw [gte_simRunZero]; norm_num
  exact ⟨by norm_num, hp, hf, (c2_run_spec simRunW 1).1 (by norm_num) hp hf,
    hz, (c2_run_spec simRunZero 1).2 hz⟩

/-- C3 (amended): for survival probability `p > 0`, nonzero `fiber_speed`,
positive per-qubit time and a NONNEGATIVE time budget, `run_for` returns
`qubits_possible = floor(time / per_qubit_time)`,
`key_generated = floor(qubits_possible * p)` and
`qubits_needed = ceil(key_len / p)`.  Nonnegativity of the budget must be
assumed: for negative budgets Python's `int()` truncates toward zero,
which differs from the claimed floor (see the counterexample). -/
theorem c3_run_for_spec (s : Simulator) (key_len : ℤ) (time : ℝ) :
    0 < 1 - s.get_total_error → s.fiber_speed ≠ 0 → 0 < s.per_qubit_time →
    0 ≤ time →
    s.run_for key_len time
      = some ⟨⌈(key_len : ℝ) / (1 - s.get_total_error)⌉,
          ⌊time / s.per_qubit_time⌋,
          ⌊((⌊time / s.per_qubit_time⌋ : ℤ) : ℝ) * (1 - s.get_total_error)⌋,
          s.get_total_error⟩ := by
  intro hp hf hq ht
  have hmq : (0:ℝ) ≤ ((⌊time / s.per_qubit_time⌋ : ℤ) : ℝ) * (1 - s.get_total_error) := by
    have h1 : (0:ℝ) ≤ time / s.per_qubit_time := div_nonneg ht hq.le
    have h2 : (0:ℤ) ≤ ⌊time / s.per_qubit_time⌋ := Int.floor_nonneg.mpr h1
    have h3 : (0:ℝ) ≤ ((⌊time / s.per_qubit_time⌋ : ℤ) : ℝ) := by exact_mod_cast h2
    exact mul_nonneg h3 (by linarith)
  simp only [Simulator.run_for]
  rw [if_neg (ne_of_gt hp), if_neg hf, if_neg (ne_of_gt hq), truncToZero, if_pos hmq]

/-- C3 counterexample: on `simHalf` (p = 1/2, per-qubit time 2 s) with
time budget −1 s, the code returns `key_generated = 0`
(`int(-0.5)` truncates toward zero) while the claimed
`floor(qubits_possible * p) = floor(-0.5)` is −1. -/
theorem c3_run_for_counterexample :
    simHalf.run_for 1 (-1) = some ⟨2, -1, 0, 1/2⟩
    ∧ ⌊((-1 : ℤ) : ℝ) * (1 - simHalf.get_total_error)⌋ = -1
    ∧ (-1 : ℤ) ≠ (0 : ℤ) := by
  have hf : simHalf.fiber_speed = 1 := rfl
  refine ⟨?_, ?_, by norm_num⟩
  · simp only [Simulator.run_for, gte_simHalf, pqt_simHalf, hf, truncToZero]
    norm_num
  · rw [gte_simHalf]
    norm_num

/-- Witness for C3: `simHalf` with key length 1 and a 3 s budget. -/
theorem c3_run_for_spec_witness :
    (0 < 1 - simHalf.get_total_error) ∧ (simHalf.fiber_speed ≠ 0)
    ∧ (0 < simHalf.per_qubit_time) ∧ ((0:ℝ) ≤ 3)
    ∧ simHalf.run_for 1 3
        = some ⟨⌈((1:ℤ) : ℝ) / (1 - simHalf.get_total_error)⌉,
            ⌊(3:ℝ) / simHalf.per_qubit_time⌋,
            ⌊((⌊(3:ℝ) / simHalf.per_qubit_time⌋ : ℤ) : ℝ)
                * (1 - simHalf.get_total_error)⌋,
            simHalf.get_total_error⟩ := by
  have hp : 0 < 1 - simHalf.get_total_error := by rw [gte_simHalf]; norm_num
  have hf : simHalf.fiber_speed ≠ 0 := by
    have h1 : simHalf.fiber_speed = 1 := rfl
    rw [h1]; norm_num
  have hq : 0 < simHalf.per_qubit_time := by rw [pqt_simHalf]; norm_num
  exact ⟨hp, hf, hq, by norm_num, c3_run_for_spec simHalf 1 3 hp hf hq (by norm_num)⟩

/-- C8: the code does NOT reject non-positive time budgets.  On `simHalf`
(p = 1/2, per-qubit time 2 s) a 0 s budget yields a result with
`qubits_possible = 0` and a −2 s budget yields a result with
`qubits_possible = -1` — `run_for` silently returns zero and negative
qubit counts where the claim requires an explicit failure. -/
theorem c8_run_for_nonpositive_time :
    simHalf.run_for 1 0 = some ⟨2, 0, 0, 1/2⟩
    ∧ simHalf.run_for 1 (-2) = some ⟨2, -1, 0, 1/2⟩ := by
  have hf : simHalf.fiber_speed = 1 := rfl
  constructor <;>
    · simp only [Simulator.run_for, gte_simHalf, pqt_simHalf, hf, truncToZero]
      norm_num

/-- Survival products multiply over concatenated source dicts. -/
theorem successProd_append (a b : List (String × ℝ)) :
    successProd (a ++ b) = successProd a * successProd b := by
  simp [successProd, List.map_append, List.prod_append]

/-- C6 (amended): `get_total_error` composes `base_error_sources`
unconditionally and folds in `additional_error_sources` exactly when
`testing_mode` is true — PROVIDED no additional source reuses a base
name: `dict.update` lets an additional entry named "fiber_length"
replace the base entry (see the counterexample).  Independently of any
naming, when `testing_mode` is false `add_err_source` cannot change
`get_total_error`. -/
theorem c6_gating_spec (s : Simulator) :
    (s.testing_mode = true →
      (∀ p ∈ s.additional_error_sources, p.1 ∉ dictKeys s.base_error_sources) →
      (dictKeys s.additional_error_sources).Nodup →
      s.get_total_error
        = 1 - successProd s.base_error_sources
            * successProd s.additional_error_sources)
    ∧ (s.testing_mode = false →
        s.get_total_error = 1 - successProd s.base_error_sources)
    ∧ (s.testing_mode = false → ∀ (name : String) (rate : ℝ),
        (s.add_err_source name rate).get_total_error = s.get_total_error) := by
  refine ⟨?_, ?_, ?_⟩
  · intro htm hdisj hnodup
    rw [get_total_error_eq, Simulator.mergedSources, htm]
    rw [if_pos rfl]
    rw [foldl_updateDict_append s.additional_error_sources s.base_error_sources
      hdisj hnodup, successProd_append]
  · intro htm
    rw [get_total_error_eq, Simulator.mergedSources, htm]
    simp
  · intro htm name rate
    have htm' : (s.add_err_source name rate).testing_mode = s.testing_mode := rfl
    have hbase : (s.add_err_source name rate).base_error_sources
        = s.base_error_sources := rfl
    rw [get_total_error_eq, get_total_error_eq, Simulator.mergedSources,
      Simulator.mergedSources, htm', htm, hbase]
    simp

/-- C6 counterexample: on `simShadow` (testing mode, additional source
named "fiber_length" of rate 1/2 on a 1 m link with 1/m attenuation) the
code returns 1/2 — the base fiber entry is NOT composed; composing base
and additional sources as the claim states would give
`1 - exp(-1)*(1/2) ≠ 1/2`. -/
theorem c6_gating_counterexample :
    simShadow.testing_mode = true
    ∧ simShadow.get_total_error
        ≠ 1 - successProd simShadow.base_error_sources
            * successProd simShadow.additional_error_sources := by
  refine ⟨rfl, ?_⟩
  have hbase : successProd simShadow.base_error_sources = Real.exp (-(1:ℝ) * 1) := by
    have h1 : simShadow.base_error_sources
        = [("fiber_length", 1 - Real.exp (-(1:ℝ) * 1))] := rfl
    rw [h1]
    simp [successProd]
  have hadd : successProd simShadow.additional_error_sources = 1/2 := by
    have h1 : simShadow.additional_error_sources = [("fiber_length", 1/2)] := rfl
    rw [h1]
    simp [successProd]
    norm_num
  rw [gte_simShadow, hbase, hadd]
  intro h
  have hexp : Real.exp (-(1:ℝ) * 1) = 1 := by
    generalize Real.exp (-(1:ℝ) * 1) = E at h ⊢
    linarith
  norm_num at hexp

/-- Witness for C6: `simHalf` (testing mode, disjoint names) for the
gated composition, and the error-free non-testing link `simRunW` for the
false branch and the `add_err_source` invariance. -/
theorem c6_gating_spec_witness :
    (simHalf.testing_mode = true
      ∧ (∀ p ∈ simHalf.additional_error_sources,
          p.1 ∉ dictKeys simHalf.base_error_sources)
      ∧ (dictKeys simHalf.additional_error_sources).Nodup
      ∧ simHalf.get_total_error
          = 1 - successProd simHalf.base_error_sources
              * successProd simHalf.additional_error_sources)
    ∧ (simRunW.testing_mode = false
      ∧ simRunW.get_total_error = 1 - successProd simRunW.base_error_sources
      ∧ (simRunW.add_err_source "x" (1/3)).get_total_error
          = simRunW.get_total_error) := by
  have htm : simHalf.testing_mode = true := rfl
  have hkeysb : dictKeys simHalf.base_error_sources = ["fiber_length"] := rfl
  have hadd : simHalf.additional_error_sources = [("noise", 1/2)] := rfl
  have hdisj : ∀ p ∈ simHalf.additional_error_sources,
      p.1 ∉ dictKeys simHalf.base_error_sources := by
    intro p hp
    rw [hadd] at hp
    simp only [List.mem_singleton] at hp
    rw [hp, hkeysb]
    simp +decide
  have hnodup : (dictKeys simHalf.additional_error_sources).Nodup := by
    rw [hadd]
    simp [dictKeys]
  have htm' : simRunW.testing_mode = false := rfl
  exact ⟨⟨htm, hdisj, hnodup, (c6_gating_spec simHalf).1 htm hdisj hnodup⟩,
    htm', (c6_gating_spec simRunW).2.1 htm',
    (c6_gating_spec simRunW).2.2 htm' "x" (1/3)⟩

/-- C9 (amended): across any interleaving of named and auto-named
`add_error_source` calls from a fresh calculator, the per-instance
counter is monotonically non-decreasing (it counts exactly the
auto-naming calls), distinct counter values give distinct
`err_source{N}` strings, and — PROVIDED the caller-supplied names are
truthy and not themselves of the shape `err_source{N}` — the next
auto-named add appends a brand-new entry, never overwriting an entry
stored under a previously used name.  The proviso is forced: a caller
may pass the literal name "err_source0", which the next auto-named add
then overwrites (see the counterexample). -/
theorem c9_auto_naming (L : ℚ) (ops : List AddOp)
    (h : ∀ op ∈ ops, ∀ s, op.name = some s → s ≠ "" ∧ ∀ k, s ≠ autoName k) :
    (∀ pre suf, ops = pre ++ suf →
      ((ErrorCalculator.init L).runAdds pre).err_num
        ≤ ((ErrorCalculator.init L).runAdds ops).err_num)
    ∧ ((ErrorCalculator.init L).runAdds ops).err_num
        = ops.countP (fun op => op.isAuto)
    ∧ (∀ m n : Nat, autoName m = autoName n → m = n)
    ∧ (∀ rate : ℚ,
        (((ErrorCalculator.init L).runAdds ops).add_error_source rate none).err
          = ((ErrorCalculator.init L).runAdds ops).err
            ++ [(autoName ((ErrorCalculator.init L).runAdds ops).err_num, rate)]) := by
  refine ⟨?_, ?_, autoName_inj, ?_⟩
  · intro pre suf hsplit
    rw [hsplit, runAdds_append]
    exact runAdds_counter_le suf _
  · rw [runAdds_counter_count]
    simp [ErrorCalculator.init]
  · intro rate
    exact autoFresh_auto_append _
      (autoFresh_runAdds ops _ (autoFresh_init L) h) rate

/-- C9 counterexample: caller-supplied name "err_source0" followed by one
auto-named add.  The auto-generated name collides with the previously
used name and the second add OVERWRITES the first entry: the final dict
holds a single entry with the second rate, and the originally stored pair
is gone. -/
theorem c9_auto_naming_counterexample :
    ((ErrorCalculator.init 0).runAdds
        [⟨1/2, some "err_source0"⟩, ⟨1/3, none⟩]).err
      = [("err_source0", 1/3)]
    ∧ ("err_source0", (1/2 : ℚ)) ∉ ((ErrorCalculator.init 0).runAdds
        [⟨1/2, some "err_source0"⟩, ⟨1/3, none⟩]).err := by
  have herr : ((ErrorCalculator.init 0).runAdds
      [⟨1/2, some "err_source0"⟩, ⟨1/3, none⟩]).err = [("err_source0", 1/3)] := by
    norm_num +decide [ErrorCalculator.runAdds, applyAdd,
      ErrorCalculator.add_error_source, ErrorCalculator.init, updateDict,
      autoName_zero]
  refine ⟨herr, ?_⟩
  rw [herr]
  intro hmem
  simp only [List.mem_singleton, Prod.mk.injEq] at hmem
  have : (1 : ℚ)/2 = 1/3 := hmem.2
  norm_num at this

/-- Witness for C9: two auto-named adds interleaved with one caller-named
add ("noise", too short to be of auto shape). -/
theorem c9_auto_naming_witness :
    (∀ op ∈ ([⟨1/2, none⟩, ⟨1/4, some "noise"⟩, ⟨1/3, none⟩] : List AddOp),
      ∀ s, op.name = some s → s ≠ "" ∧ ∀ k, s ≠ autoName k)
    ∧ (∀ rate : ℚ,
        (((ErrorCalculator.init 0).runAdds
            [⟨1/2, none⟩, ⟨1/4, some "noise"⟩, ⟨1/3, none⟩]).add_error_source
              rate none).err
          = ((ErrorCalculator.init 0).runAdds
              [⟨1/2, none⟩, ⟨1/4, some "noise"⟩, ⟨1/3, none⟩]).err
            ++ [(autoName (((ErrorCalculator.init 0).runAdds
                [⟨1/2, none⟩, ⟨1/4, some "noise"⟩, ⟨1/3, none⟩])).err_num, rate)]) := by
  have h : ∀ op ∈ ([⟨1/2, none⟩, ⟨1/4, some "noise"⟩, ⟨1/3, none⟩] : List AddOp),
      ∀ s, op.name = some s → s ≠ "" ∧ ∀ k, s ≠ autoName k := by
    intro op hop s hs
    simp only [List.mem_cons, List.not_mem_nil, or_false] at hop
    rcases hop with hop | hop | hop <;> rw [hop] at hs
    · exact absurd hs (by simp)
    · have hsn : s = "noise" := by
        injection hs with hs'
        exact hs'.symm
      rw [hsn]
      exact ⟨by decide, fun k => short_ne_autoName "noise" (by decide) k⟩
    · exact absurd hs (by simp)
  exact ⟨h, (c9_auto_naming 0 _ h).2.2.2⟩
